import Mathlib

/-!
Verification of `rpyc/utils/helpers.py` (RPyC client-side helpers).

The file embeds the module shallowly in Lean:

* `buffiter` (the buffered-iterator generator) becomes an executable
  fuelled loop producing an event trace of `syncreq` fetches and yields;
* `async_` and its process-wide proxy cache become explicit state passing
  over an association list keyed by Python object identities;
* `timed.__call__` becomes a function returning the produced
  `AsyncResult` together with the ordered list of its side effects;
* `BgServingThread._bg_server` becomes both a deterministic fuelled
  function (for counting its effects) and, together with `stop`, a
  labelled small-step transition system interleaving the background
  thread with a foreground caller (for the temporal teardown property).

Machine integers do not arise: the Python code manipulates unbounded
`int`/`float` values, modelled as `ℚ` where arithmetic matters.
-/

/-- Python exception kinds raised (or propagated) by the helpers module. -/
inductive PyErr where
  | valueError
  | typeError
  | assertionError
  deriving DecidableEq, Repr

/-- Observable events of a run of the `buffiter` generator body: a
`syncreq(it, HANDLE_BUFFITER, count)` dispatch carrying the requested batch
size, or one element being yielded to the consumer. -/
inductive BuffEvent (α : Type) where
  | fetch (size : ℚ)
  | yieldE (x : α)
  deriving DecidableEq, Repr

/-- Batch sizes passed to successive `syncreq` dispatches by `buffiter`
(`helpers.py` lines 39–42): the local `count` starts at `chunk` and after
each fetch becomes `min (count * factor) max_chunk`.  `countSeq c m f n` is
the size of the `n`-th (0-based) fetch. -/
def countSeq (chunk max_chunk factor : ℚ) : Nat → ℚ
  | 0 => chunk
  | n + 1 => min (countSeq chunk max_chunk factor n * factor) max_chunk

/-- Modelled from the spec: the synchronous dispatch primitive
`syncreq(it, HANDLE_BUFFITER, count)` is external to this module; per the
spec it returns "a batch of up to `count` elements" of the remote iterable,
in order (possibly empty), the remote iterator advancing past them.  The
remote iterator state is the list of its remaining elements. -/
def remoteFetch (elems : List α) (count : ℚ) : List α × List α :=
  (elems.take (Rat.floor count).toNat, elems.drop (Rat.floor count).toNat)

/-- The fetch/yield loop of `buffiter` (`helpers.py` lines 39–46), run
against a remote iterator holding `elems`.  Each iteration dispatches
`syncreq` with the current `count`, updates `count`, breaks on an empty
batch and otherwise yields the batch elements in order before looping.
`fuel` bounds the number of iterations (the Python loop is unbounded); the
`Bool` component is `true` when the loop exited via `break` (empty batch)
within the given fuel. -/
def buffiterLoop (max_chunk factor : ℚ) (fuel : Nat) (count : ℚ) (elems : List α) :
    List (BuffEvent α) × Bool :=
  match fuel with
  | 0 => ([], false)
  | fuel + 1 =>
    let items := (remoteFetch elems count).1
    let rest := (remoteFetch elems count).2
    let count' := min (count * factor) max_chunk
    if items.isEmpty then ([BuffEvent.fetch count], true)
    else
      let r := buffiterLoop max_chunk factor fuel count' rest
      (BuffEvent.fetch count :: (items.map BuffEvent.yieldE ++ r.1), r.2)

/-- Executing the body of the `buffiter` generator (what happens once the
consumer starts iterating): the `factor < 1` check runs first and raises
`ValueError` before any dispatch; otherwise the fetch/yield loop runs.
Returns the event trace together with either the error or the
loop-terminated flag. -/
def buffiterRun (elems : List α) (chunk max_chunk factor : ℚ) (fuel : Nat) :
    List (BuffEvent α) × Except PyErr Bool :=
  if factor < 1 then ([], Except.error PyErr.valueError)
  else
    let r := buffiterLoop max_chunk factor fuel chunk elems
    (r.1, Except.ok r.2)

/-- A suspended `buffiter` generator object: the captured arguments of the
call, with no body statement executed yet. -/
structure BuffGen (α : Type) where
  elems : List α
  chunk : ℚ
  max_chunk : ℚ
  factor : ℚ
  deriving DecidableEq, Repr

/-- The call `buffiter(obj, chunk, max_chunk, factor)` itself: `buffiter`
is a Python generator function, so the call only allocates and returns the
generator object; no statement of the body — in particular neither the
`factor < 1` check nor any `syncreq` — runs until the first `next()`.
Construction therefore never raises. -/
def buffiterConstruct (elems : List α) (chunk max_chunk factor : ℚ) :
    Except PyErr (BuffGen α) :=
  Except.ok ⟨elems, chunk, max_chunk, factor⟩

/-- The batch sizes carried by the fetch events of a trace, in order. -/
def fetchSizes : List (BuffEvent α) → List ℚ
  | [] => []
  | BuffEvent.fetch s :: tr => s :: fetchSizes tr
  | BuffEvent.yieldE _ :: tr => fetchSizes tr

/-- The elements yielded to the consumer by a trace, in order. -/
def yieldedElems : List (BuffEvent α) → List α
  | [] => []
  | BuffEvent.fetch _ :: tr => yieldedElems tr
  | BuffEvent.yieldE x :: tr => x :: yieldedElems tr

lemma fetchSizes_append (l₁ l₂ : List (BuffEvent α)) :
    fetchSizes (l₁ ++ l₂) = fetchSizes l₁ ++ fetchSizes l₂ := by
  induction l₁ with
  | nil => rfl
  | cons e tl ih => cases e <;> simp [fetchSizes, ih]

lemma fetchSizes_map_yieldE (l : List α) :
    fetchSizes (l.map BuffEvent.yieldE) = [] := by
  induction l with
  | nil => rfl
  | cons x tl ih => simp [fetchSizes, ih]

lemma countSeq_shift (c m f : ℚ) (n : Nat) :
    countSeq (min (c * f) m) m f n = countSeq c m f (n + 1) := by
  induction n with
  | zero => rfl
  | succ k ih => simp only [countSeq, ih]

/-- Every fetch of a `buffiter` loop run requests exactly the size given by
the `countSeq` recurrence: the fetch-size log is an initial segment of
`countSeq c m f`. -/
lemma buffiterLoop_fetchSizes (m f : ℚ) :
    ∀ (fuel : Nat) (c : ℚ) (elems : List α),
      ∃ k, fetchSizes (buffiterLoop m f fuel c elems).1 =
        (List.range k).map (countSeq c m f) := by
  intro fuel
  induction fuel with
  | zero => intro c elems; exact ⟨0, rfl⟩
  | succ fl ih =>
    intro c elems
    by_cases hempty : ((remoteFetch elems c).1).isEmpty
    · refine ⟨1, ?_⟩
      simp [buffiterLoop, hempty, fetchSizes, countSeq, List.range_succ]
    · obtain ⟨k, hk⟩ := ih (min (c * f) m) (remoteFetch elems c).2
      refine ⟨k + 1, ?_⟩
      simp only [buffiterLoop, hempty, if_false, Bool.false_eq_true]
      rw [fetchSizes, fetchSizes_append, fetchSizes_map_yieldE, List.nil_append, hk,
        List.range_succ_eq_map]
      simp only [List.map_cons, List.map_map, countSeq]
      congr 1
      apply List.map_congr_left
      intro n _
      simp only [Function.comp_apply]
      rw [countSeq_shift]

/-- C3: in every `buffiter` run the requested batch size starts at `chunk`
and after each fetch becomes `min (count * factor) max_chunk`; the sizes
actually dispatched to `syncreq` form an initial segment of this sequence;
and for `chunk = 10`, `max_chunk = 1000`, `factor = 2` the sequence is
`10, 20, 40, 80, 160, 320, 640, 1000, 1000, …`. -/
theorem buffiter_batch_sizes :
    (∀ chunk max_chunk factor : ℚ, countSeq chunk max_chunk factor 0 = chunk ∧
      ∀ n, countSeq chunk max_chunk factor (n + 1) =
        min (countSeq chunk max_chunk factor n * factor) max_chunk) ∧
    (∀ (α : Type) (elems : List α) (chunk max_chunk factor : ℚ) (fuel : Nat),
      ∃ k, fetchSizes (buffiterLoop max_chunk factor fuel chunk elems).1 =
        (List.range k).map (countSeq chunk max_chunk factor)) ∧
    (List.range 10).map (countSeq 10 1000 2) =
      [10, 20, 40, 80, 160, 320, 640, 1000, 1000, 1000] := by
  refine ⟨fun c m f => ⟨rfl, fun n => rfl⟩,
    fun α elems c m f fuel => buffiterLoop_fetchSizes m f fuel c elems, ?_⟩
  norm_num [List.range_succ, countSeq]

/-- C9 counterexample: the first fetch requests `chunk` uncapped, so with
`chunk = 2000 > max_chunk = 1000` the first requested size exceeds the cap
and the second requested size is strictly smaller than the first; a
negative `chunk` also yields a strictly decreasing sequence. -/
theorem countSeq_not_capped_cex :
    1000 < countSeq 2000 1000 2 0 ∧
    countSeq 2000 1000 2 1 < countSeq 2000 1000 2 0 ∧
    countSeq (-10) 1000 2 1 < countSeq (-10) 1000 2 0 := by
  norm_num [countSeq]

/-- C9 (amended): for growth factor ≥ 1 and `0 ≤ chunk ≤ max_chunk`, every
requested batch size of the session (the first included) is at most
`max_chunk`, and the size sequence is monotonically non-decreasing. -/
theorem countSeq_monotone_capped (chunk max_chunk factor : ℚ)
    (hf : 1 ≤ factor) (h0 : 0 ≤ chunk) (hcm : chunk ≤ max_chunk) :
    (∀ n, countSeq chunk max_chunk factor n ≤ max_chunk) ∧
    Monotone (countSeq chunk max_chunk factor) := by
  have hbounds : ∀ n, 0 ≤ countSeq chunk max_chunk factor n ∧
      countSeq chunk max_chunk factor n ≤ max_chunk := by
    intro n
    induction n with
    | zero => exact ⟨h0, hcm⟩
    | succ k ih =>
      simp only [countSeq]
      refine ⟨le_min ?_ (le_trans h0 hcm), min_le_right _ _⟩
      exact mul_nonneg ih.1 (le_trans zero_le_one hf)
  refine ⟨fun n => (hbounds n).2, monotone_nat_of_le_succ ?_⟩
  intro n
  simp only [countSeq]
  exact le_min (le_mul_of_one_le_right (hbounds n).1 hf) (hbounds n).2

theorem countSeq_monotone_capped_witness :
    (1 : ℚ) ≤ 2 ∧ (0 : ℚ) ≤ 10 ∧ (10 : ℚ) ≤ 1000 ∧
    countSeq 10 1000 2 3 ≤ 1000 ∧ countSeq 10 1000 2 3 ≤ countSeq 10 1000 2 5 := by
  refine ⟨by decide, by decide, by decide, ?_, ?_⟩
  · exact (countSeq_monotone_capped 10 1000 2 (by decide) (by decide) (by decide)).1 3
  · exact (countSeq_monotone_capped 10 1000 2 (by decide) (by decide) (by decide)).2
      (show (3 : ℕ) ≤ 5 by decide)

/-- C6 counterexample: `buffiter` is a generator function, so the call
`buffiter(obj, 10, 1000, factor = 0)` succeeds — no exception is raised at
construction even though `0 < 1`; the `ValueError` only surfaces once
iteration of the returned generator starts (still before any `syncreq`). -/
theorem buffiter_construct_lazy_cex :
    buffiterConstruct ([1, 2, 3] : List Nat) 10 1000 0 =
      Except.ok ⟨[1, 2, 3], 10, 1000, 0⟩ ∧
    buffiterRun ([1, 2, 3] : List Nat) 10 1000 0 5 =
      ([], Except.error PyErr.valueError) := by
  refine ⟨rfl, ?_⟩
  norm_num [buffiterRun]

/-- C6 (amended): for every `factor < 1`, the first resumption of the
`buffiter` generator fails with `ValueError` before any network call: the
run produces the error and an empty event trace, so zero `syncreq`
dispatches are made. -/
theorem buffiter_bad_factor (α : Type) (elems : List α) (chunk max_chunk factor : ℚ)
    (fuel : Nat) (h : factor < 1) :
    buffiterRun elems chunk max_chunk factor fuel =
      ([], Except.error PyErr.valueError) := by
  simp [buffiterRun, h]

theorem buffiter_bad_factor_witness :
    (1 / 2 : ℚ) < 1 ∧
    buffiterRun ([1, 2] : List Nat) 10 1000 (1 / 2) 5 =
      ([], Except.error PyErr.valueError) := by
  have h : (1 / 2 : ℚ) < 1 := by norm_num
  exact ⟨h, buffiter_bad_factor Nat [1, 2] 10 1000 (1 / 2) 5 h⟩

/-- C4: elements of each fetched batch are yielded in order before the next
batch is requested, and an empty batch response ends the sequence with no
error: over a remote source of exactly 25 elements with `chunk = 10`,
`factor = 2`, the trace is fetch 10, yield 0…9, fetch 20, yield 10…24,
fetch 40 (empty, clean break) — all 25 elements arrive in their two
element-bearing fetches and the probing third fetch terminates the
iterator; an empty source terminates cleanly on its first fetch. -/
theorem buffiter_in_order_consumption :
    (∀ (α : Type) (chunk max_chunk factor : ℚ) (fuel : Nat), 1 ≤ factor →
      buffiterRun ([] : List α) chunk max_chunk factor (fuel + 1) =
        ([BuffEvent.fetch chunk], Except.ok true)) ∧
    buffiterRun (List.range 25) 10 1000 2 5 =
      (BuffEvent.fetch 10 :: (List.range 10).map BuffEvent.yieldE ++
        (BuffEvent.fetch 20 :: (List.range' 10 15).map BuffEvent.yieldE ++
          [BuffEvent.fetch 40]), Except.ok true) := by
  constructor
  · intro α c m f fuel h
    rw [buffiterRun, if_neg (not_lt.mpr h)]
    simp [buffiterLoop, remoteFetch]
  · norm_num [buffiterRun, buffiterLoop, remoteFetch]
    decide

theorem buffiter_in_order_consumption_witness :
    (1 : ℚ) ≤ 1 ∧ buffiterRun ([] : List Nat) 1 1 1 1 =
      ([BuffEvent.fetch 1], Except.ok true) :=
  ⟨le_refl 1, buffiter_in_order_consumption.1 Nat 1 1 1 0 (le_refl 1)⟩

/-- An abstract object standing for the `proxy` argument of `async_`: its
Python identity `id(proxy)` together with the three properties the function
inspects — presence of the `____conn__` and `____id_pack__` markers,
and callability. -/
structure Netref where
  pid : Nat
  hasConnMarker : Bool
  hasIdPackMarker : Bool
  isCallable : Bool
  deriving DecidableEq, Repr

/-- An `_Async` wrapper object (`helpers.py` lines 92–105): it stores a
strong reference to the wrapped proxy, so the proxy stays alive as long as
the wrapper does; `wid` is the wrapper's own Python identity `id(caller)`. -/
structure AsyncWrapper where
  wid : Nat
  proxy : Netref
  deriving DecidableEq, Repr

/-- The process-wide `_async_proxies_cache` (`helpers.py` line 108)
together with a fresh-identity allocator for newly created wrapper objects.
The cache is an association list from Python identity to wrapper.  Value
weakness matters only at garbage collection, which has no counterpart in
the model: every modelled entry is live. -/
structure AsyncCacheState where
  cache : List (Nat × AsyncWrapper)
  nextId : Nat
  deriving DecidableEq, Repr

/-- The function `async_(proxy)` (`helpers.py` lines 144–153): return the
cached wrapper for `id(proxy)` when one is present; otherwise check that
the proxy carries both Netref markers and is callable, raising `TypeError`
otherwise; otherwise allocate a fresh `_Async` wrapper and cache it under
both `id(caller)` and `id(proxy)`.  `async_` itself never dispatches
anything: the only `asyncreq` of the module sits in `_Async.__call__`. -/
def async_ (proxy : Netref) (st : AsyncCacheState) :
    Except PyErr (AsyncWrapper × AsyncCacheState) :=
  match st.cache.lookup proxy.pid with
  | some w => Except.ok (w, st)
  | none =>
    if !proxy.hasConnMarker || !proxy.hasIdPackMarker then
      Except.error PyErr.typeError
    else if !proxy.isCallable then
      Except.error PyErr.typeError
    else
      let caller : AsyncWrapper := ⟨st.nextId, proxy⟩
      Except.ok (caller,
        ⟨(caller.wid, caller) :: (proxy.pid, caller) :: st.cache, st.nextId + 1⟩)

/-- C5: wrapping is idempotent while the first wrapper is held: whenever
`async_ proxy` succeeds with wrapper `w` and cache state `st'`, calling
`async_ proxy` again in that state returns the object-identical wrapper `w`
and leaves the state unchanged — no duplicate wrapper for the same target
is ever created. -/
theorem async_idempotent (proxy : Netref) (st st' : AsyncCacheState) (w : AsyncWrapper)
    (h : async_ proxy st = Except.ok (w, st')) :
    async_ proxy st' = Except.ok (w, st') := by
  unfold async_ at h ⊢
  cases hl : st.cache.lookup proxy.pid with
  | some w0 =>
    rw [hl] at h
    simp only [Except.ok.injEq, Prod.mk.injEq] at h
    obtain ⟨rfl, rfl⟩ := h
    rw [hl]
  | none =>
    rw [hl] at h
    by_cases hc : (!proxy.hasConnMarker || !proxy.hasIdPackMarker : Bool)
    · rw [if_pos hc] at h; exact absurd h (by simp)
    · rw [if_neg hc] at h
      by_cases hcall : (!proxy.isCallable : Bool)
      · rw [if_pos hcall] at h; exact absurd h (by simp)
      · rw [if_neg hcall] at h
        simp only [Except.ok.injEq, Prod.mk.injEq] at h
        obtain ⟨rfl, rfl⟩ := h
        cases hb : (proxy.pid == st.nextId) <;> simp [List.lookup, hb]

theorem async_idempotent_witness :
    async_ ⟨7, true, true, true⟩ ⟨[], 0⟩ =
      Except.ok (⟨0, ⟨7, true, true, true⟩⟩,
        ⟨[(0, ⟨0, ⟨7, true, true, true⟩⟩), (7, ⟨0, ⟨7, true, true, true⟩⟩)], 1⟩) ∧
    async_ ⟨7, true, true, true⟩
        ⟨[(0, ⟨0, ⟨7, true, true, true⟩⟩), (7, ⟨0, ⟨7, true, true, true⟩⟩)], 1⟩ =
      Except.ok (⟨0, ⟨7, true, true, true⟩⟩,
        ⟨[(0, ⟨0, ⟨7, true, true, true⟩⟩), (7, ⟨0, ⟨7, true, true, true⟩⟩)], 1⟩) :=
  ⟨rfl, async_idempotent ⟨7, true, true, true⟩ ⟨[], 0⟩ _ _ rfl⟩

/-- C7: for every argument that lacks the `____conn__` marker or the
`____id_pack__` marker or is not callable, `async_` fails with `TypeError`
and issues no asynchronous dispatch — the module's only `asyncreq` sits in
`_Async.__call__`, which is never reached.  The hypothesis that the
argument's identity is absent from the cache is automatic in the source:
only wrappers of validated proxies are ever cached, and a cached wrapper
pins its proxy alive, so a live invalid object can never share an identity
with a cached proxy. -/
theorem async_invalid_proxy (proxy : Netref) (st : AsyncCacheState)
    (hmem : st.cache.lookup proxy.pid = none)
    (hbad : proxy.hasConnMarker = false ∨ proxy.hasIdPackMarker = false ∨
      proxy.isCallable = false) :
    async_ proxy st = Except.error PyErr.typeError := by
  unfold async_
  rw [hmem]
  rcases hbad with hb | hb | hb
  · simp [hb]
  · simp [hb]
  · by_cases h2 : (!proxy.hasConnMarker || !proxy.hasIdPackMarker : Bool)
    · simp [h2]
    · simp [h2, hb]

theorem async_invalid_proxy_witness :
    ([] : List (Nat × AsyncWrapper)).lookup 3 = none ∧
    ((⟨3, true, true, false⟩ : Netref).isCallable = false) ∧
    async_ ⟨3, true, true, false⟩ ⟨[], 5⟩ = Except.error PyErr.typeError :=
  ⟨rfl, rfl,
    async_invalid_proxy ⟨3, true, true, false⟩ ⟨[], 5⟩ rfl (Or.inr (Or.inr rfl))⟩

/-- An `AsyncResult` handle as visible from this module: only the expiry
imprinted by `set_expiry` is modelled; readiness and value delivery belong
to the excluded dispatch layer. -/
structure AsyncResult where
  expiry : Option ℚ
  deriving DecidableEq, Repr

/-- Side effects of invoking proxies: an `asyncreq(proxy, HANDLE_CALL, …)`
dispatch, or `set_expiry(t)` on an `AsyncResult`. -/
inductive CallEv where
  | asyncDispatch (wid : Nat)
  | setExpiryEv (t : ℚ)
  deriving DecidableEq, Repr

/-- Modelled from the spec: `asyncreq` (the external asynchronous dispatch
primitive) returns a `PendingResult` immediately, without blocking and with
no expiry set; the dispatch itself is the only side effect. -/
def asyncreq (w : AsyncWrapper) : AsyncResult × List CallEv :=
  (⟨none⟩, [CallEv.asyncDispatch w.wid])

/-- `_Async.__call__` (`helpers.py` lines 101–102): a single `asyncreq`
dispatch with `HANDLE_CALL`, returning its `AsyncResult`. -/
def asyncWrapperCall (w : AsyncWrapper) : AsyncResult × List CallEv :=
  asyncreq w

/-- `AsyncResult.set_expiry` as invoked by `timed.__call__`: imprints the
timeout on the handle. -/
def set_expiry (r : AsyncResult) (t : ℚ) : AsyncResult × List CallEv :=
  ({ r with expiry := some t }, [CallEv.setExpiryEv t])

/-- A `timed` proxy object (`helpers.py` lines 178–182): the `_Async`
wrapper produced by `async_` plus the timeout, both fixed at
construction. -/
structure TimedProxy where
  proxy : AsyncWrapper
  timeout : ℚ
  deriving DecidableEq, Repr

/-- `timed.__init__` (`helpers.py` lines 180–182): wrap via `async_` and
store the timeout. -/
def timedInit (proxy : Netref) (timeout : ℚ) (st : AsyncCacheState) :
    Except PyErr (TimedProxy × AsyncCacheState) :=
  match async_ proxy st with
  | Except.error e => Except.error e
  | Except.ok (w, st') => Except.ok (⟨w, timeout⟩, st')

/-- `timed.__call__` (`helpers.py` lines 183–186): invoke the async proxy,
then `set_expiry(self.timeout)` on the result, then return the result. -/
def timedCall (tp : TimedProxy) : AsyncResult × List CallEv :=
  let rd := asyncWrapperCall tp.proxy
  let re := set_expiry rd.1 tp.timeout
  (re.1, rd.2 ++ re.2)

/-- C8: every invocation of a `timed` proxy performs exactly the same
single non-blocking async dispatch as `_Async.__call__` and then sets the
expiry on the resulting `AsyncResult` before returning it: the returned
handle already carries `some timeout`, and the effect sequence is the
dispatch followed by `set_expiry`, both completed before the caller sees
the handle. -/
theorem timed_call_sets_expiry (tp : TimedProxy) :
    (timedCall tp).1.expiry = some tp.timeout ∧
    (timedCall tp).2 =
      [CallEv.asyncDispatch tp.proxy.wid, CallEv.setExpiryEv tp.timeout] :=
  ⟨rfl, rfl⟩

/-- Events of the background serve loop of `BgServingThread._bg_server`: a
`conn.serve` pump that returned normally, a pump whose call raised, and the
inter-iteration `time.sleep`. -/
inductive BgEvent where
  | serveOk
  | serveFail
  | sleepDone
  deriving DecidableEq, Repr

/-- How the background context running `_bg_server` ended. -/
inductive BgOutcome where
  | exitedNormally
  | reraised
  | fuelOut
  deriving DecidableEq, Repr

/-- Result of one run of `_bg_server`: its event list, how many times the
handler executed `self._active = False`, how many times the callback ran,
and how the context ended. -/
structure BgRes where
  events : List BgEvent
  setInactive : Nat
  callbackRuns : Nat
  outcome : BgOutcome
  deriving DecidableEq, Repr

/-- `BgServingThread._bg_server` (`helpers.py` lines 230–240) as a
deterministic function of its environment.  `pump n` tells whether the
`n`-th `conn.serve` call returns normally (`true`) or raises (`false`).
`activeRead k` is the value observed by the `k`-th read of `self._active`
from this thread — the `while` condition and the `except`-branch test each
consume one read; this lets a concurrent `stop` (the only other writer,
and it only ever writes `False`) land between any two reads.  `fuel`
bounds the number of loop iterations of the unbounded Python loop.  The
remaining two arguments are the indices of the next `_active` read and the
next `conn.serve` call. -/
def bgRun (pump : Nat → Bool) (activeRead : Nat → Bool) (hasCallback : Bool) :
    Nat → Nat → Nat → BgRes
  | 0, _, _ => ⟨[], 0, 0, BgOutcome.fuelOut⟩
  | fuel + 1, readIdx, serveIdx =>
    if !activeRead readIdx then ⟨[], 0, 0, BgOutcome.exitedNormally⟩
    else if pump serveIdx then
      let r := bgRun pump activeRead hasCallback fuel (readIdx + 1) (serveIdx + 1)
      ⟨BgEvent.serveOk :: BgEvent.sleepDone :: r.events,
        r.setInactive, r.callbackRuns, r.outcome⟩
    else if activeRead (readIdx + 1) then
      if hasCallback then ⟨[BgEvent.serveFail], 1, 1, BgOutcome.exitedNormally⟩
      else ⟨[BgEvent.serveFail], 1, 0, BgOutcome.reraised⟩
    else ⟨[BgEvent.serveFail], 0, 0, BgOutcome.exitedNormally⟩

/-- A prefix of `N` successful pumps (with the active flag reading true at
each loop check) contributes `N` serve/sleep pairs and otherwise defers to
the rest of the run. -/
lemma bgRun_ok_segment (pump activeRead : Nat → Bool) (cb : Bool) :
    ∀ (N fuel readIdx serveIdx : Nat),
      (∀ k, k < N → pump (serveIdx + k) = true) →
      (∀ k, k < N → activeRead (readIdx + k) = true) →
      N ≤ fuel →
      bgRun pump activeRead cb fuel readIdx serveIdx =
        ⟨(List.replicate N [BgEvent.serveOk, BgEvent.sleepDone]).flatten ++
            (bgRun pump activeRead cb (fuel - N) (readIdx + N) (serveIdx + N)).events,
          (bgRun pump activeRead cb (fuel - N) (readIdx + N) (serveIdx + N)).setInactive,
          (bgRun pump activeRead cb (fuel - N) (readIdx + N) (serveIdx + N)).callbackRuns,
          (bgRun pump activeRead cb (fuel - N) (readIdx + N) (serveIdx + N)).outcome⟩ := by
  intro N
  induction N with
  | zero => intro fuel r s _ _ _; simp
  | succ n ih =>
    intro fuel r s hok hr hfuel
    cases fuel with
    | zero => omega
    | succ f =>
      have hr0 : activeRead r = true := by
        have := hr 0 (Nat.succ_pos n); simpa using this
      have hp0 : pump s = true := by
        have := hok 0 (Nat.succ_pos n); simpa using this
      rw [bgRun, hr0, hp0]
      simp only [Bool.not_true, Bool.false_eq_true, if_false, if_true]
      rw [ih f (r + 1) (s + 1)
        (fun k hk => by
          have h2 : s + 1 + k = s + (k + 1) := by omega
          rw [h2]; exact hok (k + 1) (by omega))
        (fun k hk => by
          have h2 : r + 1 + k = r + (k + 1) := by omega
          rw [h2]; exact hr (k + 1) (by omega))
        (by omega)]
      simp only [List.replicate_succ, List.flatten_cons, List.cons_append, List.append_assoc]
      have harith : ∀ x : Nat, x + 1 + n = x + (n + 1) := by omega
      simp [harith, Nat.succ_sub_succ]

/-- C2: if the pump raises on its `N`-th call while the worker is still
active (every read of `_active` observes true up to that point), the worker
sets `_active` to false exactly once, runs the callback exactly once and
exits normally when a callback was supplied, and re-raises (crashing the
background context) when none was; the failing pump is the last serve
event — the error is never retried. -/
theorem bg_server_pump_failure (pump activeRead : Nat → Bool) (cb : Bool) (N fuel : Nat)
    (hactive : ∀ k, activeRead k = true)
    (hok : ∀ k, k < N → pump k = true) (hfail : pump N = false) (hfuel : N < fuel) :
    bgRun pump activeRead cb fuel 0 0 =
      ⟨(List.replicate N [BgEvent.serveOk, BgEvent.sleepDone]).flatten ++
          [BgEvent.serveFail],
        1, if cb then 1 else 0,
        if cb then BgOutcome.exitedNormally else BgOutcome.reraised⟩ := by
  rw [bgRun_ok_segment pump activeRead cb N fuel 0 0
    (fun k hk => by simpa using hok k hk)
    (fun k _ => hactive _) (Nat.le_of_lt hfuel)]
  have h1 : ∃ f, fuel - N = f + 1 := ⟨fuel - N - 1, by omega⟩
  obtain ⟨f, hf⟩ := h1
  rw [hf, bgRun]
  simp only [Nat.zero_add, hactive, hfail, Bool.not_true, Bool.false_eq_true,
    if_false, if_true]
  cases cb <;> simp

theorem bg_server_pump_failure_witness :
    (0 : Nat) < 1 ∧
    bgRun (fun _ => false) (fun _ => true) true 1 0 0 =
      ⟨[BgEvent.serveFail], 1, 1, BgOutcome.exitedNormally⟩ :=
  ⟨Nat.zero_lt_one,
    bg_server_pump_failure (fun _ => false) (fun _ => true) true 0 1
      (fun _ => rfl) (fun k hk => absurd hk (Nat.not_lt_zero k)) rfl Nat.zero_lt_one⟩

/-- C10: if the pump raises on its `N`-th call but the `except`-branch read
of `_active` observes false (a stop request landed before the failure was
handled), the handler swallows the exception: the context exits normally,
`_active` is not written by this path and the callback never runs, even
when one was supplied. -/
theorem bg_server_swallows_when_inactive (pump activeRead : Nat → Bool) (cb : Bool)
    (N fuel : Nat)
    (hok : ∀ k, k < N → pump k = true) (hfail : pump N = false)
    (hreads : ∀ k, k ≤ N → activeRead k = true) (hexc : activeRead (N + 1) = false)
    (hfuel : N < fuel) :
    bgRun pump activeRead cb fuel 0 0 =
      ⟨(List.replicate N [BgEvent.serveOk, BgEvent.sleepDone]).flatten ++
          [BgEvent.serveFail],
        0, 0, BgOutcome.exitedNormally⟩ := by
  rw [bgRun_ok_segment pump activeRead cb N fuel 0 0
    (fun k hk => by simpa using hok k hk)
    (fun k hk => by simpa using hreads k (Nat.le_of_lt hk)) (Nat.le_of_lt hfuel)]
  have h1 : ∃ f, fuel - N = f + 1 := ⟨fuel - N - 1, by omega⟩
  obtain ⟨f, hf⟩ := h1
  rw [hf, bgRun]
  have hrN : activeRead (0 + N) = true := by simpa using hreads N (Nat.le_refl N)
  simp only [Nat.zero_add] at hrN ⊢
  simp [hrN, hfail, hexc]

theorem bg_server_swallows_when_inactive_witness :
    (fun k : Nat => decide (k = 0)) 1 = false ∧
    bgRun (fun _ => false) (fun k => decide (k = 0)) true 1 0 0 =
      ⟨[BgEvent.serveFail], 0, 0, BgOutcome.exitedNormally⟩ :=
  ⟨rfl,
    bg_server_swallows_when_inactive (fun _ => false) (fun k => decide (k = 0)) true 0 1
      (fun k hk => absurd hk (Nat.not_lt_zero k)) rfl
      (fun k hk => by simp [Nat.le_zero.mp hk]) rfl Nat.zero_lt_one⟩

/-- Program counter of the background thread running `_bg_server`, for the
interleaved model of a worker and a foreground `stop` caller. -/
inductive BgPC where
  | loopCheck
  | preServe
  | sleepPt
  | excCheck
  | excDispatch
  | exited
  | crashed
  deriving DecidableEq, Repr

/-- Whether the background context has finished (returned or re-raised):
the states in which `self._thread.join()` returns. -/
def BgPC.terminal : BgPC → Bool
  | BgPC.exited => true
  | BgPC.crashed => true
  | _ => false

/-- Program counter of a foreground caller of `BgServingThread.stop`
(`helpers.py` lines 242–248): the assert, the flag write, the join, and
the connection release, in source order. -/
inductive FgPC where
  | idle
  | stopAssert
  | stopSetFlag
  | stopJoin
  | stopRelease
  | stopDone
  | stopFailed
  deriving DecidableEq, Repr

/-- Joint state of one `BgServingThread` and one foreground caller of its
`stop` method: the shared `_active` flag, whether `_conn` is still held,
whether a failure callback was supplied, the two program counters, and the
running counts of `conn.serve` calls and callback invocations. -/
structure BgSys where
  active : Bool
  connHeld : Bool
  hasCallback : Bool
  bg : BgPC
  fg : FgPC
  serveCount : Nat
  cbCount : Nat
  deriving DecidableEq, Repr

/-- Transition labels of the interleaved system.  `serveRet` and
`serveRaise` are the two outcomes of an actual `conn.serve` pump call. -/
inductive SysLabel where
  | checkTrue
  | bgExit
  | serveRet
  | serveRaise
  | sleepStep
  | excSetInactive
  | excSwallow
  | callbackRun
  | reraise
  | stopCalled
  | assertPass
  | assertFail
  | stopSetInactive
  | joined
  | stopReturn
  deriving DecidableEq, Repr

/-- Steps available to the background thread (`_bg_server`, `helpers.py`
lines 230–240): check the `while self._active` condition, call
`conn.serve` (its outcome decided by `pump` at the current call index),
sleep, and — when a pump raised — re-test `_active`, set it false, then
either run the callback or re-raise.  A finished thread takes no steps. -/
def bgSteps (pump : Nat → Bool) (s : BgSys) : List (SysLabel × BgSys) :=
  match s.bg with
  | BgPC.loopCheck =>
    if s.active then [(SysLabel.checkTrue, { s with bg := BgPC.preServe })]
    else [(SysLabel.bgExit, { s with bg := BgPC.exited })]
  | BgPC.preServe =>
    if pump s.serveCount then
      [(SysLabel.serveRet,
        { s with bg := BgPC.sleepPt, serveCount := s.serveCount + 1 })]
    else
      [(SysLabel.serveRaise,
        { s with bg := BgPC.excCheck, serveCount := s.serveCount + 1 })]
  | BgPC.sleepPt => [(SysLabel.sleepStep, { s with bg := BgPC.loopCheck })]
  | BgPC.excCheck =>
    if s.active then
      [(SysLabel.excSetInactive, { s with active := false, bg := BgPC.excDispatch })]
    else [(SysLabel.excSwallow, { s with bg := BgPC.exited })]
  | BgPC.excDispatch =>
    if s.hasCallback then
      [(SysLabel.callbackRun, { s with bg := BgPC.exited, cbCount := s.cbCount + 1 })]
    else [(SysLabel.reraise, { s with bg := BgPC.crashed })]
  | BgPC.exited => []
  | BgPC.crashed => []

/-- Steps available to the foreground caller: invoke `stop` at any moment,
then run its statements in source order — `assert self._active` (failing
into `stopFailed` when the flag is false, changing nothing else),
`self._active = False`, `self._thread.join()` (enabled only once the
background context is terminal — join blocks until then), and
`self._conn = None`. -/
def fgSteps (s : BgSys) : List (SysLabel × BgSys) :=
  match s.fg with
  | FgPC.idle => [(SysLabel.stopCalled, { s with fg := FgPC.stopAssert })]
  | FgPC.stopAssert =>
    if s.active then [(SysLabel.assertPass, { s with fg := FgPC.stopSetFlag })]
    else [(SysLabel.assertFail, { s with fg := FgPC.stopFailed })]
  | FgPC.stopSetFlag =>
    [(SysLabel.stopSetInactive, { s with active := false, fg := FgPC.stopJoin })]
  | FgPC.stopJoin =>
    if s.bg.terminal then [(SysLabel.joined, { s with fg := FgPC.stopRelease })]
    else []
  | FgPC.stopRelease =>
    [(SysLabel.stopReturn, { s with connHeld := false, fg := FgPC.stopDone })]
  | FgPC.stopDone => []
  | FgPC.stopFailed => []

/-- All steps of the interleaved system: the scheduler freely picks the
background thread or the foreground caller. -/
def sysSteps (pump : Nat → Bool) (s : BgSys) : List (SysLabel × BgSys) :=
  bgSteps pump s ++ fgSteps s

/-- A finite interleaved execution from `s`: each trace entry records the
label taken and the state reached. -/
inductive Steps (pump : Nat → Bool) : BgSys → List (SysLabel × BgSys) → Prop where
  | nil (s : BgSys) : Steps pump s []
  | cons {s : BgSys} {p : SysLabel × BgSys} {tr : List (SysLabel × BgSys)} :
      p ∈ sysSteps pump s → Steps pump p.2 tr → Steps pump s (p :: tr)

/-- State right after `BgServingThread.__init__`: flag set, connection
held, background thread started at the top of its loop, caller outside
`stop`. -/
def initSys (cb : Bool) : BgSys :=
  ⟨true, true, cb, BgPC.loopCheck, FgPC.idle, 0, 0⟩


lemma bgSteps_empty_of_terminal (pump : Nat → Bool) (s : BgSys)
    (h : s.bg.terminal = true) : bgSteps pump s = [] := by
  cases hbg : s.bg <;> rw [hbg] at h <;>
    simp [BgPC.terminal] at h <;> simp [bgSteps, hbg]

/-- Every step the background thread can take leaves the foreground
counter alone, never turns the `_active` flag back on, and never carries a
foreground label. -/
lemma bgSteps_effects (pump : Nat → Bool) (s : BgSys) (p : SysLabel × BgSys)
    (h : p ∈ bgSteps pump s) :
    p.2.fg = s.fg ∧ (s.active = false → p.2.active = false) ∧
    p.1 ≠ SysLabel.stopReturn := by
  cases hbg : s.bg <;> simp only [bgSteps, hbg] at h <;> (try split at h) <;>
    simp at h <;> subst h <;> simp_all

/-- Every step the foreground caller can take leaves the background
counter and the count of issued `conn.serve` calls alone, and never
carries a pump label. -/
lemma fgSteps_effects (s : BgSys) (p : SysLabel × BgSys)
    (h : p ∈ fgSteps s) :
    p.2.bg = s.bg ∧ p.2.serveCount = s.serveCount ∧
    p.1 ≠ SysLabel.serveRet ∧ p.1 ≠ SysLabel.serveRaise := by
  cases hfg : s.fg <;> simp only [fgSteps, hfg] at h <;> (try split at h) <;>
    simp at h <;> subst h <;> simp_all

/-- Invariant tying the progress of `stop` to the system state: past the
flag write, `_active` stays false; past the join, the background context
is terminal. -/
def StopInv (s : BgSys) : Prop :=
  ((s.fg = FgPC.stopJoin ∨ s.fg = FgPC.stopRelease ∨ s.fg = FgPC.stopDone) →
    s.active = false) ∧
  ((s.fg = FgPC.stopRelease ∨ s.fg = FgPC.stopDone) → s.bg.terminal = true)

lemma stopInv_step (pump : Nat → Bool) {s : BgSys} {p : SysLabel × BgSys}
    (h : p ∈ sysSteps pump s) (hinv : StopInv s) : StopInv p.2 := by
  rcases List.mem_append.mp h with hb | hf
  · obtain ⟨hfg, hact, _⟩ := bgSteps_effects pump s p hb
    constructor
    · intro hcase; rw [hfg] at hcase; exact hact (hinv.1 hcase)
    · intro hcase
      rw [hfg] at hcase
      have hterm := hinv.2 hcase
      rw [bgSteps_empty_of_terminal pump s hterm] at hb
      exact absurd hb (List.not_mem_nil p)
  · cases hfg : s.fg <;> simp only [fgSteps, hfg] at hf
    case idle => simp at hf; subst hf; exact ⟨by simp, by simp⟩
    case stopAssert =>
      split at hf <;> (simp at hf; subst hf; exact ⟨by simp, by simp⟩)
    case stopSetFlag =>
      simp at hf; subst hf
      exact ⟨fun _ => rfl, by simp⟩
    case stopJoin =>
      split at hf
      case isTrue hterm =>
        simp at hf; subst hf
        exact ⟨fun _ => hinv.1 (Or.inl hfg), fun _ => hterm⟩
      case isFalse => simp at hf
    case stopRelease =>
      simp at hf; subst hf
      exact ⟨fun _ => hinv.1 (Or.inr (Or.inl hfg)), fun _ => hinv.2 (Or.inl hfg)⟩
    case stopDone => simp at hf
    case stopFailed => simp at hf

/-- Once the background context is terminal it stays terminal, and no
later trace entry is a `conn.serve` pump call. -/
lemma no_serve_after_terminal (pump : Nat → Bool) :
    ∀ (tr : List (SysLabel × BgSys)) (s : BgSys), Steps pump s tr →
      s.bg.terminal = true →
      ∀ p, p ∈ tr → p.1 ≠ SysLabel.serveRet ∧ p.1 ≠ SysLabel.serveRaise := by
  intro tr
  induction tr with
  | nil => intro s _ _ p hp; exact absurd hp (List.not_mem_nil p)
  | cons q tr ih =>
    intro s h hterm p hp
    cases h with
    | cons hm hrest =>
      have hq : q ∈ fgSteps s := by
        have hb := bgSteps_empty_of_terminal pump s hterm
        unfold sysSteps at hm
        rw [hb] at hm
        simpa using hm
      obtain ⟨hbg, _, hn1, hn2⟩ := fgSteps_effects s q hq
      rcases List.mem_cons.mp hp with rfl | hp'
      · exact ⟨hn1, hn2⟩
      · exact ih q.2 hrest (by rw [hbg]; exact hterm) p hp'

/-- A transition labelled `stopReturn` can only be the final statement of
`stop`: the caller was at the connection release, and the step clears the
connection reference and finishes `stop`, changing nothing else. -/
lemma stopReturn_step (pump : Nat → Bool) (s : BgSys) (p : SysLabel × BgSys)
    (h : p ∈ sysSteps pump s) (hl : p.1 = SysLabel.stopReturn) :
    s.fg = FgPC.stopRelease ∧
    p.2 = { s with connHeld := false, fg := FgPC.stopDone } := by
  rcases List.mem_append.mp h with hb | hf
  · exact absurd hl (bgSteps_effects pump s p hb).2.2
  · cases hfg : s.fg <;> simp only [fgSteps, hfg] at hf <;> (try split at hf) <;>
      simp at hf <;> subst hf <;> simp_all

/-- Any execution can be split at a distinguished step, and the invariant
reaches the state from which that step was taken. -/
lemma steps_decompose (pump : Nat → Bool) :
    ∀ (tr₁ : List (SysLabel × BgSys)) (s : BgSys) (p : SysLabel × BgSys)
      (tr₂ : List (SysLabel × BgSys)),
      Steps pump s (tr₁ ++ p :: tr₂) → StopInv s →
      ∃ s₁, StopInv s₁ ∧ p ∈ sysSteps pump s₁ ∧ Steps pump p.2 tr₂ := by
  intro tr₁
  induction tr₁ with
  | nil =>
    intro s p tr₂ h hinv
    cases h with
    | cons hm hrest => exact ⟨s, hinv, hm, hrest⟩
  | cons q tr₁ ih =>
    intro s p tr₂ h hinv
    rw [List.cons_append] at h
    cases h with
    | cons hm hrest => exact ih q.2 p tr₂ hrest (stopInv_step pump hm hinv)

/-- C1: teardown of a worker by `stop`.  (i) `stop` invoked on a worker
whose `_active` flag is already false fails the assertion: the only
available foreground step moves the caller to `stopFailed` and changes
nothing else.  (ii) the `join` inside `stop` blocks exactly until the
background context has finished: no foreground step exists while the
context runs, and the single available step once it finished is `joined`.
(iii) in any interleaved execution from a freshly constructed worker, when
`stop` returns (label `stopReturn`) the flag is false, the connection
reference has been released, the background context has fully exited, and
no `conn.serve` pump call occurs anywhere in the remainder of the
execution. -/
theorem bg_stop_teardown :
    (∀ s : BgSys, s.fg = FgPC.stopAssert → s.active = false →
      fgSteps s = [(SysLabel.assertFail, { s with fg := FgPC.stopFailed })]) ∧
    (∀ s : BgSys, s.fg = FgPC.stopJoin →
      (s.bg.terminal = false → fgSteps s = []) ∧
      (s.bg.terminal = true →
        fgSteps s = [(SysLabel.joined, { s with fg := FgPC.stopRelease })])) ∧
    (∀ (pump : Nat → Bool) (cb : Bool) (tr₁ tr₂ : List (SysLabel × BgSys))
      (s' : BgSys),
      Steps pump (initSys cb) (tr₁ ++ (SysLabel.stopReturn, s') :: tr₂) →
      s'.active = false ∧ s'.connHeld = false ∧ s'.bg.terminal = true ∧
        ∀ p, p ∈ tr₂ → p.1 ≠ SysLabel.serveRet ∧ p.1 ≠ SysLabel.serveRaise) := by
  refine ⟨?_, ?_, ?_⟩
  · intro s hfg hact
    simp [fgSteps, hfg, hact]
  · intro s hfg
    constructor <;> intro hterm <;> simp [fgSteps, hfg, hterm]
  · intro pump cb tr₁ tr₂ s' h
    have hinv0 : StopInv (initSys cb) := by
      constructor <;> intro hcase <;> simp [initSys] at hcase
    obtain ⟨s₁, hinv₁, hmem, hrest⟩ :=
      steps_decompose pump tr₁ (initSys cb) (SysLabel.stopReturn, s') tr₂ h hinv0
    obtain ⟨hfg₁, hs'⟩ := stopReturn_step pump s₁ (SysLabel.stopReturn, s') hmem rfl
    have hact₁ : s₁.active = false := hinv₁.1 (Or.inr (Or.inl hfg₁))
    have hterm₁ : s₁.bg.terminal = true := hinv₁.2 (Or.inl hfg₁)
    have hs'2 : s' = { s₁ with connHeld := false, fg := FgPC.stopDone } := hs'
    subst hs'2
    exact ⟨hact₁, rfl, hterm₁, no_serve_after_terminal pump tr₂ _ hrest hterm₁⟩

theorem bg_stop_teardown_witness :
    Steps (fun _ => true) (initSys false)
      ([(SysLabel.stopCalled, ⟨true, true, false, BgPC.loopCheck, FgPC.stopAssert, 0, 0⟩),
        (SysLabel.assertPass, ⟨true, true, false, BgPC.loopCheck, FgPC.stopSetFlag, 0, 0⟩),
        (SysLabel.stopSetInactive, ⟨false, true, false, BgPC.loopCheck, FgPC.stopJoin, 0, 0⟩),
        (SysLabel.bgExit, ⟨false, true, false, BgPC.exited, FgPC.stopJoin, 0, 0⟩),
        (SysLabel.joined, ⟨false, true, false, BgPC.exited, FgPC.stopRelease, 0, 0⟩)] ++
        (SysLabel.stopReturn,
          (⟨false, false, false, BgPC.exited, FgPC.stopDone, 0, 0⟩ : BgSys)) :: []) ∧
    (false = false ∧ false = false ∧ BgPC.exited.terminal = true ∧
      ∀ p : SysLabel × BgSys, p ∈ ([] : List (SysLabel × BgSys)) →
        p.1 ≠ SysLabel.serveRet ∧ p.1 ≠ SysLabel.serveRaise) := by
  have htr : Steps (fun _ => true) (initSys false)
      ([(SysLabel.stopCalled, ⟨true, true, false, BgPC.loopCheck, FgPC.stopAssert, 0, 0⟩),
        (SysLabel.assertPass, ⟨true, true, false, BgPC.loopCheck, FgPC.stopSetFlag, 0, 0⟩),
        (SysLabel.stopSetInactive, ⟨false, true, false, BgPC.loopCheck, FgPC.stopJoin, 0, 0⟩),
        (SysLabel.bgExit, ⟨false, true, false, BgPC.exited, FgPC.stopJoin, 0, 0⟩),
        (SysLabel.joined, ⟨false, true, false, BgPC.exited, FgPC.stopRelease, 0, 0⟩)] ++
        (SysLabel.stopReturn,
          (⟨false, false, false, BgPC.exited, FgPC.stopDone, 0, 0⟩ : BgSys)) :: []) :=
    Steps.cons (by decide) (Steps.cons (by decide) (Steps.cons (by decide)
      (Steps.cons (by decide) (Steps.cons (by decide) (Steps.cons (by decide)
        (Steps.nil _))))))
  exact ⟨htr, bg_stop_teardown.2.2 (fun _ => true) false _ []
    ⟨false, false, false, BgPC.exited, FgPC.stopDone, 0, 0⟩ htr⟩
